import Mathlib

/-!
Shallow embedding of the core workflow engine of the Virtual PMT repository
(src/Virtual_PMT/src): the phase policy (config.py), the structural plan
validator and the judge (judge.py), the suggestion-based plan enhancer
(enhancer.py) and the sequential task executor (executor.py).

Modelling conventions: Python `str` is `String` (with ASCII-faithful models
of `.lower()`, `.strip()` and `.split()`), Python `int` is `Int`, Python
lists are `List`, and a raised Python exception is `Except.error` carrying a
`PyErr`.  The text-completion engine (`llm.invoke`) and the JSON library
(`json.loads`) are external collaborators of the core and are passed in as
oracle parameters; the memory stores are write-only side effects the core
never reads back within a node, so they do not appear in node outputs.
-/

namespace VirtualPMT

/-- ASCII whitespace, the separator set of `str.split()` and `str.strip()`. -/
def pyWs (c : Char) : Bool := c = ' ' || c = '\t' || c = '\n' || c = '\r'

/-- Python `str.lower()` (ASCII model). -/
def pyLower (s : String) : String := String.mk (s.data.map Char.toLower)

/-- Python `str.strip()`: drop leading and trailing whitespace. -/
def pyStrip (s : String) : String :=
  String.mk (((s.data.dropWhile pyWs).reverse.dropWhile pyWs).reverse)

/-- Worker for `pySplit`; `cur` is the current word, reversed. -/
def pySplitGo (cur : List Char) : List Char → List String
  | [] => if cur.isEmpty then [] else [String.mk cur.reverse]
  | c :: rest =>
      if pyWs c then
        (if cur.isEmpty then [] else [String.mk cur.reverse]) ++ pySplitGo [] rest
      else pySplitGo (c :: cur) rest

/-- Python `str.split()` with no argument: split on whitespace runs, no empty words. -/
def pySplit (s : String) : List String := pySplitGo [] s.data

/-- Python string slicing `s[:n]`, by code points. -/
def pySlice (s : String) (n : Nat) : String := String.mk (s.data.take n)

/-- A raised Python exception, by kind and the offending type name or key. -/
inductive PyErr where
  | attributeError (typeName : String) (attr : String)
  | keyError (key : String)
  | typeError (typeName : String)
deriving DecidableEq, Repr

/-- An element of a plan list: either a Python dict, modelled by its two
observable keys `agent_type` and `task` (`none` = key absent), or a non-dict
value carrying its Python type name. -/
inductive PlanItem where
  | obj (agentType : Option String) (task : Option String)
  | nondict (typeName : String)
deriving DecidableEq, Repr

/-- Python `item.get("agent_type", dflt)`; raises AttributeError on a non-dict. -/
def getAgent : PlanItem → String → Except PyErr String
  | .obj a _, dflt => .ok (a.getD dflt)
  | .nondict tn, _ => .error (.attributeError tn "get")

/-- Python `item.get("task", dflt)`; raises AttributeError on a non-dict. -/
def getTaskField : PlanItem → String → Except PyErr String
  | .obj _ t, dflt => .ok (t.getD dflt)
  | .nondict tn, _ => .error (.attributeError tn "get")

/-- Python subscript `item["task"]`; raises KeyError if the key is absent and
TypeError if the item is not a dict. -/
def itemTask : PlanItem → Except PyErr String
  | .obj _ (some t) => .ok t
  | .obj _ none => .error (.keyError "task")
  | .nondict tn => .error (.typeError tn)

/-- The `PHASE_ALLOWED_AGENTS` table of config.py (a Python dict, in
insertion order). -/
def PHASE_ALLOWED_AGENTS : List (String × List String) :=
  [("ideation", ["product_manager", "research_agent", "brainstorm_agent"]),
   ("research", ["product_manager", "research_agent", "data_analyst", "user_researcher"]),
   ("design", ["product_manager", "ux_designer", "ui_designer", "design_agent", "user_researcher"]),
   ("development", ["product_manager", "technical_architect", "developer_agent", "qa_engineer"]),
   ("testing", ["product_manager", "qa_engineer", "user_researcher", "data_analyst"]),
   ("launch", ["product_manager", "marketing_agent", "data_analyst", "launch_coordinator"])]

/-- `get_allowed_agents` of config.py: `PHASE_ALLOWED_AGENTS.get(phase, [])`. -/
def get_allowed_agents (phase : String) : List String :=
  ((PHASE_ALLOWED_AGENTS.find? (fun p => p.1 == phase)).map Prod.snd).getD []

/-- Error string of the empty-plan check of `validate_plan_structure`. -/
def emptyPlanMsg : String := "Plan is empty. At least one task is required."

/-- Error string of Check 2 for a non-dict element (1-based index `j`). -/
def notDictMsg (j : Nat) : String := s!"Task {j} is not a valid dictionary object."

/-- Error string of Check 2 for a missing `agent_type` key. -/
def missingAgentMsg (j : Nat) : String := s!"Task {j} is missing \x27agent_type\x27 field."

/-- Error string of Check 2 for a missing `task` key. -/
def missingTaskMsg (j : Nat) : String := s!"Task {j} is missing \x27task\x27 field."

/-- Error string of Check 2 for a description under 10 characters. -/
def tooShortMsg (j : Nat) : String := s!"Task {j} description is too short. Provide more detail."

/-- Error string of Check 3 for a phase-disallowed agent. -/
def notAllowedMsg (j : Nat) (agent phase allowedStr : String) : String :=
  s!"Task {j}: Agent \x27{agent}\x27 is not allowed in {phase} phase. Allowed agents: {allowedStr}"

/-- Error string of Check 5 for two near-duplicate tasks of one agent. -/
def similarMsg (j1 j2 : Nat) (agent : String) : String :=
  s!"Tasks {j1} and {j2} for {agent} seem very similar. Consider merging or making them more distinct."

/-- Check 2 of `validate_plan_structure`: each element must be a dict with an
`agent_type` key and a `task` key whose stripped text has at least 10
characters.  The counter `i` is 0-based; messages use 1-based indices. -/
def check2 : Nat → List PlanItem → List String
  | _, [] => []
  | i, .nondict _ :: rest => notDictMsg (i + 1) :: check2 (i + 1) rest
  | i, .obj a t :: rest =>
      (if a.isNone then [missingAgentMsg (i + 1)] else []) ++
      (match t with
       | none => [missingTaskMsg (i + 1)]
       | some td => if (pyStrip td).length < 10 then [tooShortMsg (i + 1)] else []) ++
      check2 (i + 1) rest

/-- Check 3 of `validate_plan_structure`: every `agent_type` must be allowed
in the phase.  `task.get` raises AttributeError on a non-dict element. -/
def check3 (allowed : List String) (phase : String) : Nat → List PlanItem → Except PyErr (List String)
  | _, [] => .ok []
  | i, it :: rest =>
      match getAgent it "" with
      | .error e => .error e
      | .ok agent =>
        match check3 allowed phase (i + 1) rest with
        | .error e => .error e
        | .ok tail =>
          if allowed.contains agent then .ok tail
          else .ok (notAllowedMsg (i + 1) agent phase (String.intercalate ", " allowed) :: tail)

/-- One bucket entry of Check 5: (1-based index, lower-cased description). -/
abbrev BEntry := Nat × String

/-- Append `e` to the bucket of `agent`, creating the bucket at the end if it
is absent — the update semantics of the insertion-ordered Python dict of
lists built by Check 5. -/
def bucketInsert : List (String × List BEntry) → String → BEntry → List (String × List BEntry)
  | [], agent, e => [(agent, [e])]
  | (a, es) :: rest, agent, e =>
      if a == agent then (a, es ++ [e]) :: rest else (a, es) :: bucketInsert rest agent e

/-- The grouping loop of Check 5: `agent_tasks[agent].append((i+1, task_desc))`
with `agent = task.get("agent_type", "unknown")` and the description
lower-cased.  Raises on a non-dict element, as `.get` does. -/
def buildBuckets : List (String × List BEntry) → Nat → List PlanItem → Except PyErr (List (String × List BEntry))
  | acc, _, [] => .ok acc
  | acc, i, it :: rest =>
      match getAgent it "unknown" with
      | .error e => .error e
      | .ok agent =>
        match getTaskField it "" with
        | .error e => .error e
        | .ok desc => buildBuckets (bucketInsert acc agent (i + 1, pyLower desc)) (i + 1) rest

/-- Word set of a description: Python `set(desc.split())`, as a dup-free list. -/
def wordSet (s : String) : List String := (pySplit s).dedup

/-- The word-overlap test of Check 5.  Python compares
`overlap > 0.7 * min(len(words1), len(words2))` in double precision; at
plan-scale word counts that comparison coincides with the exact rational
comparison `10 * overlap > 7 * min` used here. -/
def similar (t1 t2 : String) : Bool :=
  let w1 := wordSet t1
  let w2 := wordSet t2
  let overlap := (w1.filter (fun w => w2.contains w)).length
  decide (10 * overlap > 7 * min w1.length w2.length)

/-- The pair loop of Check 5 over one bucket: every ordered pair (earlier
entry, later entry) is tested for near-duplication. -/
def pairErrors (agent : String) : List BEntry → List String
  | [] => []
  | (j1, t1) :: rest =>
      rest.filterMap (fun e => if similar t1 e.2 then some (similarMsg j1 e.1 agent) else none)
        ++ pairErrors agent rest

/-- Check 5 of `validate_plan_structure`: near-duplicate detection, bucket by
bucket in dict order, only for buckets with more than one task. -/
def check5 (buckets : List (String × List BEntry)) : List String :=
  buckets.flatMap (fun b => if b.2.length > 1 then pairErrors b.1 b.2 else [])

/-- `validate_plan_structure` of judge.py.  Returns `(is_valid, errors)` with
`is_valid` true iff the error list is empty; `Except.error` models an
uncaught Python exception. -/
def validate_plan_structure (plan : List PlanItem) (phase : String) :
    Except PyErr (Bool × List String) :=
  if plan.isEmpty then .ok (false, [emptyPlanMsg])
  else
    match check3 (get_allowed_agents phase) phase 0 plan with
    | .error e => .error e
    | .ok e3 =>
      match buildBuckets [] 0 plan with
      | .error e => .error e
      | .ok buckets =>
        let errors := check2 0 plan ++ e3 ++ check5 buckets
        .ok (errors.isEmpty, errors)

instance (priority := low) decEqExcept {ε α : Type} [DecidableEq ε] [DecidableEq α] :
    DecidableEq (Except ε α) := fun a b => by
  cases a <;> cases b
  case error.error e1 e2 =>
    exact if h : e1 = e2 then isTrue (by rw [h]) else isFalse (by intro hc; cases hc; exact h rfl)
  case ok.ok v1 v2 =>
    exact if h : v1 = v2 then isTrue (by rw [h]) else isFalse (by intro hc; cases hc; exact h rfl)
  all_goals exact isFalse (by intro h; cases h)

/-- A suggestion dict extracted from judge feedback, modelled by the keys
that `apply_suggestions` reads (`none` = key absent). -/
structure Suggestion where
  action : Option String := none
  agentType : Option String := none
  task : Option String := none
  newTask : Option String := none
  step : Option Int := none
  reason : Option String := none
deriving DecidableEq, Repr

/-- `suggestion.get("action", "").lower()` as read by the partition loop. -/
def actionOf (s : Suggestion) : String := pyLower (s.action.getD "")

/-- Partition predicate of `apply_suggestions` for additions. -/
def isAdd (s : Suggestion) : Bool := actionOf s == "add"

/-- Partition predicate of `apply_suggestions` for modifications. -/
def isModify (s : Suggestion) : Bool := actionOf s == "modify"

/-- Partition predicate of `apply_suggestions` for removals. -/
def isRemove (s : Suggestion) : Bool := actionOf s == "remove"

/-- Change-log entry for a modification. -/
def modifiedMsg (step : Int) (oldTask newTask : String) : String :=
  s!"Modified step {step}: {pySlice oldTask 50}... → {pySlice newTask 50}..."

/-- Change-log entry for an addition. -/
def addedMsg (agent task : String) : String := s!"Added: {agent} - {pySlice task 50}..."

/-- Change-log entry for a removal. -/
def removedMsg (step : Int) (task : String) : String :=
  s!"Removed step {step}: {pySlice task 50}..."

/-- Python in-place update `item["task"] = newTask` on a dict item (only
reached after `item["task"]` was read successfully, hence on dicts). -/
def setTask : PlanItem → String → PlanItem
  | .obj a _, nt => .obj a (some nt)
  | .nondict tn, _ => .nondict tn

/-- The modification loop of `apply_suggestions`: 1-based `step` converted to
a 0-based index, out-of-bounds modifications skipped; reading the old task
text (`enhanced_plan[index]["task"]`) can raise. -/
def applyModifies : List PlanItem → List String → List Suggestion → Except PyErr (List PlanItem × List String)
  | ep, log, [] => .ok (ep, log)
  | ep, log, s :: rest =>
      let step := s.step.getD 0
      let newTask := s.newTask.getD ""
      let index := step - 1
      if h : 0 ≤ index ∧ index < (ep.length : Int) then
        match itemTask (ep.get ⟨index.toNat, by omega⟩) with
        | .error e => .error e
        | .ok oldTask =>
          applyModifies (ep.set index.toNat (setTask (ep.get ⟨index.toNat, by omega⟩) newTask))
            (log ++ [modifiedMsg step oldTask newTask]) rest
      else applyModifies ep log rest

/-- The addition loop of `apply_suggestions`: default agent
`product_manager`, phase-disallowed agents skipped, new task appended at the
end.  This loop cannot raise. -/
def applyAdds (allowed : List String) : List PlanItem → List String → List Suggestion → List PlanItem × List String
  | ep, log, [] => (ep, log)
  | ep, log, s :: rest =>
      let agent := s.agentType.getD "product_manager"
      let task := s.task.getD ""
      if allowed.contains agent then
        applyAdds allowed (ep ++ [.obj (some agent) (some task)]) (log ++ [addedMsg agent task]) rest
      else applyAdds allowed ep log rest

/-- The removal loop of `apply_suggestions` (already sorted by descending
step): 1-based `step` converted to a 0-based index, out-of-bounds removals
skipped; reading `removed_task["task"]` for the log entry can raise. -/
def applyRemoves : List PlanItem → List String → List Suggestion → Except PyErr (List PlanItem × List String)
  | ep, log, [] => .ok (ep, log)
  | ep, log, s :: rest =>
      let step := s.step.getD 0
      let index := step - 1
      if h : 0 ≤ index ∧ index < (ep.length : Int) then
        match itemTask (ep.get ⟨index.toNat, by omega⟩) with
        | .error e => .error e
        | .ok rt => applyRemoves (ep.eraseIdx index.toNat) (log ++ [removedMsg step rt]) rest
      else applyRemoves ep log rest

/-- Sort key of the removal sort: `suggestion.get("step", 0)`. -/
def stepKey (s : Suggestion) : Int := s.step.getD 0

/-- Insert `x` into a descending-by-step list, after every element with a
strictly larger step (so equal steps keep their original order). -/
def insertDesc (x : Suggestion) : List Suggestion → List Suggestion
  | [] => [x]
  | y :: ys => if stepKey x < stepKey y then y :: insertDesc x ys else x :: y :: ys

/-- Stable sort by descending step number — the effect of Python
`removes.sort(key=lambda x: x.get("step", 0), reverse=True)`. -/
def sortDescByStep : List Suggestion → List Suggestion
  | [] => []
  | x :: xs => insertDesc x (sortDescByStep xs)

/-- `apply_suggestions` of enhancer.py: partition by action, then modify
(length-preserving), then add (appended at the end, phase-checked), then
remove, after a stable sort of the removals by descending step number. -/
def apply_suggestions (plan : List PlanItem) (suggestions : List Suggestion) (phase : String) :
    Except PyErr (List PlanItem × List String) :=
  let allowed := get_allowed_agents phase
  match applyModifies plan [] (suggestions.filter isModify) with
  | .error e => .error e
  | .ok (ep1, log1) =>
    let (ep2, log2) := applyAdds allowed ep1 log1 (suggestions.filter isAdd)
    applyRemoves ep2 log2 (sortDescByStep (suggestions.filter isRemove))

/-- Python `s.replace("_", " ")`. -/
def pyUnderscoreToSpace (s : String) : String :=
  String.mk (s.data.map (fun c => if c = '_' then ' ' else c))

/-- Worker for `pyTitle`: `prevAlpha` says whether the previous character was
alphabetic. -/
def pyTitleGo (prevAlpha : Bool) : List Char → List Char
  | [] => []
  | c :: rest =>
      if c.isAlpha then
        (if prevAlpha then c.toLower else c.toUpper) :: pyTitleGo true rest
      else c :: pyTitleGo false rest

/-- Python `str.title()` (ASCII model): upper-case the first letter of every
alphabetic run, lower-case the rest. -/
def pyTitle (s : String) : String := String.mk (pyTitleGo false s.data)

/-- `get_agent_role_description` of executor.py: the static persona table,
with a default persona for unknown roles. -/
def get_agent_role_description (agent_type : String) : String :=
  if agent_type == "product_manager" then
    "You are a Product Manager. You define vision, requirements, and priorities.\n        You think strategically about user needs and business goals."
  else if agent_type == "research_agent" then
    "You are a Market Research Specialist. You analyze markets, competitors, \n        and trends. You provide data-driven insights."
  else if agent_type == "brainstorm_agent" then
    "You are a Creative Brainstorming Facilitator. You generate innovative \n        ideas and explore possibilities."
  else if agent_type == "data_analyst" then
    "You are a Data Analyst. You work with data, metrics, and analytics. \n        You identify patterns and provide quantitative insights."
  else if agent_type == "user_researcher" then
    "You are a User Researcher. You understand user needs, behaviors, and \n        pain points. You conduct research and synthesize findings."
  else if agent_type == "ux_designer" then
    "You are a UX Designer. You design user experiences, flows, and interactions. \n        You focus on usability and user satisfaction."
  else if agent_type == "ui_designer" then
    "You are a UI Designer. You create visual designs, layouts, and aesthetics. \n        You ensure designs are beautiful and on-brand."
  else if agent_type == "design_agent" then
    "You are a Design Specialist. You handle various design tasks from \n        wireframes to visual design."
  else if agent_type == "technical_architect" then
    "You are a Technical Architect. You design system architecture, \n        choose technologies, and plan technical implementation."
  else if agent_type == "developer_agent" then
    "You are a Software Developer. You write code, implement features, \n        and solve technical problems."
  else if agent_type == "qa_engineer" then
    "You are a QA Engineer. You test software, find bugs, and ensure quality. \n        You create test plans and validation strategies."
  else if agent_type == "marketing_agent" then
    "You are a Marketing Specialist. You develop marketing strategies, \n        messaging, and go-to-market plans."
  else if agent_type == "launch_coordinator" then
    "You are a Launch Coordinator. You manage product launches, \n        coordinate teams, and ensure successful rollouts."
  else
    "You are a " ++ pyUnderscoreToSpace agent_type ++ " specialist."

/-- One result record `{agent_type, task, output}` appended by the executor. -/
structure TaskResult where
  agent_type : String
  task : String
  output : String
deriving DecidableEq, Repr

/-- The `AppState` record of config.py, restricted to the fields the embedded
nodes read or write (`current_step`, `conv_memory`, `retrieved_memory` and
`human_approved` are never read by planner/judge/enhancer/executor).  The
cursor `step` is a non-negative counter: it starts at 0 and the executor is
its only writer, always advancing it by one. -/
structure AppState where
  input : String := ""
  phase : String := "ideation"
  step : Nat := 0
  plan : List PlanItem := []
  reviewed_plan : List PlanItem := []
  enhanced_plan : List PlanItem := []
  results : List TaskResult := []
  done : Bool := false
  judge_feedback : String := ""
  validation_errors : List String := []
deriving DecidableEq, Repr

/-- The partial state update returned by `executor_node`.  The completed
branch returns a dict without a `"step"` key, hence the `Option`. -/
structure ExecUpdate where
  results : List TaskResult
  step : Option Nat
  done : Bool
deriving DecidableEq, Repr

/-- One context line: `f"{agent.replace('_',' ').title()}:\n{output[:200]}..."`. -/
def ctxLine (r : TaskResult) : String :=
  pyTitle (pyUnderscoreToSpace r.agent_type) ++ ":\n" ++ pySlice r.output 200 ++ "..."

/-- Python `results[-3:]`: the last three results. -/
def lastThree (rs : List TaskResult) : List TaskResult := rs.drop (rs.length - 3)

/-- The previous-outputs context block of the executor prompt. -/
def previousOutputs (rs : List TaskResult) : String :=
  if rs.isEmpty then "No previous agent outputs yet."
  else String.intercalate "\n\n" ((lastThree rs).map ctxLine)

/-- The persona prompt the executor sends to the completion engine. -/
def build_exec_prompt (agent_type task phase : String) (results : List TaskResult) : String :=
  "You are acting as the \x27" ++ pyTitle (pyUnderscoreToSpace agent_type) ++
  "\x27 agent in a " ++ phase ++ " phase product development process.\n\nYOUR ROLE:\n" ++
  get_agent_role_description agent_type ++
  "\n\nYOUR CURRENT TASK:\n" ++ task ++
  "\n\nCONTEXT FROM PREVIOUS AGENTS:\n" ++ previousOutputs results ++
  "\n\nIMPORTANT INSTRUCTIONS:\n- Provide detailed, actionable output in markdown format\n- Be specific and practical\n- Consider the " ++
  phase ++
  " phase constraints\n- Build on previous agents\x27 work when relevant\n- If you need clarification, state what\x27s unclear\n\nProvide your output:\n"

/-- The in-band output substituted when the completion engine raises:
`f"Error executing task: {str(e)}"`. -/
def errorOutputMsg (e : String) : String := s!"Error executing task: {e}"

/-- The plan the executor reads:
`state.enhanced_plan if state.enhanced_plan else state.reviewed_plan` — the
Python truthiness test, i.e. the fallback fires exactly on emptiness. -/
def selected_plan (s : AppState) : List PlanItem :=
  if s.enhanced_plan.isEmpty then s.reviewed_plan else s.enhanced_plan

/-- The body of `executor_node` after the plan/step/results/phase reads.  The
completion engine is the oracle `llm`; its failure (`Except.error` carrying
`str(e)`) is caught and converted to an error-string output.  Reading the
keys of the current task (`current_task.get`) can raise on a non-dict
element; memory writes are external side effects with no read-back. -/
def executor_core (llm : String → Except String String) (plan : List PlanItem)
    (step : Nat) (results : List TaskResult) (phase : String) : Except PyErr ExecUpdate :=
  if h : step < plan.length then
    match getAgent (plan.get ⟨step, h⟩) "product_manager" with
    | .error e => .error e
    | .ok agent_type =>
      match getTaskField (plan.get ⟨step, h⟩) "" with
      | .error e => .error e
      | .ok task =>
        let output := match llm (build_exec_prompt agent_type task phase results) with
          | .ok o => o
          | .error e => errorOutputMsg e
        .ok { results := results ++ [{ agent_type := agent_type, task := task, output := output }],
              step := some (step + 1), done := false }
  else
    .ok { results := results, step := none, done := true }

/-- `executor_node` of executor.py. -/
def executor_node (llm : String → Except String String) (s : AppState) : Except PyErr ExecUpdate :=
  executor_core llm (selected_plan s) s.step s.results s.phase

/-- JSON string escaping (the characters our strings can contain). -/
def jsonEscapeChar (c : Char) : String :=
  if c = '"' then "\\\"" else if c = '\\' then "\\\\"
  else if c = '\n' then "\\n" else if c = '\t' then "\\t"
  else if c = '\r' then "\\r" else String.mk [c]

/-- A JSON string literal. -/
def jsonString (s : String) : String :=
  "\"" ++ String.join (s.data.map jsonEscapeChar) ++ "\""

/-- `json.dumps` of one plan element at indent level 1 (indent=2).  A
non-dict element is abstracted by its type name: the serialization feeds
only the review prompt, which is consumed by the universally quantified
completion-engine oracle. -/
def json_dumps_item : PlanItem → String
  | .obj none none => "\x7b\x7d"
  | .obj (some a) none => "\x7b\n    \"agent_type\": " ++ jsonString a ++ "\n  \x7d"
  | .obj none (some t) => "\x7b\n    \"task\": " ++ jsonString t ++ "\n  \x7d"
  | .obj (some a) (some t) =>
      "\x7b\n    \"agent_type\": " ++ jsonString a ++ ",\n    \"task\": " ++ jsonString t ++ "\n  \x7d"
  | .nondict tn => "<" ++ tn ++ ">"

/-- `json.dumps(plan, indent=2)`. -/
def json_dumps_plan (plan : List PlanItem) : String :=
  if plan.isEmpty then "[]"
  else "[\n  " ++ String.intercalate ",\n  " (plan.map json_dumps_item) ++ "\n]"

/-- The review prompt of `get_llm_validation` in judge.py (braces of the
embedded JSON examples written as escapes). -/
def judge_prompt (plan : List PlanItem) (user_input phase : String) : String :=
  "You are a Quality Assurance Judge for a multi-agent product development system.\n\nYour job is to review the plan and provide constructive feedback.\n\nCONTEXT:\n- Current Phase: " ++
  phase ++ "\n- User Request: " ++ user_input ++ "\n- Allowed Agents: " ++
  String.intercalate ", " (get_allowed_agents phase) ++
  "\n\nPLAN TO REVIEW:\n" ++ json_dumps_plan plan ++
  "\n\nPlease evaluate:\n1. COMPLETENESS: Does the plan cover all necessary aspects for this phase?\n2. CLARITY: Are the tasks clear and specific?\n3. LOGICAL ORDER: Are tasks in a sensible sequence?\n4. PHASE APPROPRIATENESS: Are tasks suitable for the " ++
  phase ++
  " phase?\n5. MISSING ELEMENTS: What important steps might be missing?\n\nProvide your feedback in this exact format:\n\nSTRENGTHS:\n[List what\x27s good about the plan]\n\nCONCERNS:\n[List any issues or missing elements]\n\nSUGGESTIONS:\n[Specific improvements as a JSON list]\n\nFormat suggestions as a JSON list like:\n[\n  \x7b\"action\": \"add\", \"agent_type\": \"research_agent\", \"task\": \"description\", \"reason\": \"why this is needed\"\x7d,\n  \x7b\"action\": \"modify\", \"step\": 1, \"new_task\": \"improved description\", \"reason\": \"why change is needed\"\x7d,\n  \x7b\"action\": \"remove\", \"step\": 2, \"reason\": \"why this should be removed\"\x7d\n]\n\nIf the plan is good as-is, return an empty suggestions list: []\n"

/-- The effect of `re.search(r'\[.*\]', text, re.DOTALL)`: the substring from
the first `[` to the last `]`, when the latter follows the former. -/
def bracket_slice (s : String) : Option String :=
  let fromBracket := s.data.dropWhile (fun c => c ≠ '[')
  let cut := fromBracket.reverse.dropWhile (fun c => c ≠ ']')
  if cut.isEmpty then none else some (String.mk cut.reverse)

/-- `get_llm_validation` of judge.py.  `llm` is the completion-engine oracle
(uncaught on failure here); `jsonSuggestions` is the JSON-library oracle for
`json.loads` of the sliced array text (`none` = parse failure, swallowed). -/
def get_llm_validation (llm : String → Except PyErr String)
    (jsonSuggestions : String → Option (List Suggestion))
    (plan : List PlanItem) (user_input phase : String) :
    Except PyErr (String × List Suggestion) :=
  match llm (judge_prompt plan user_input phase) with
  | .error e => .error e
  | .ok raw =>
    let suggestions := match bracket_slice raw with
      | some sub => (jsonSuggestions sub).getD []
      | none => []
    .ok (raw, suggestions)

/-- The partial state update returned by `judge_node`. -/
structure JudgeUpdate where
  reviewed_plan : List PlanItem
  judge_feedback : String
  validation_errors : List String
deriving DecidableEq, Repr

/-- Python `'=' * 60`. -/
def eqBar : String := String.mk (List.replicate 60 '=')

/-- The feedback text of the invalid branch of `judge_node`. -/
def structFailFeedback (errs : List String) : String :=
  "STRUCTURAL VALIDATION FAILED:\n\n" ++
  String.intercalate "\n" (errs.map (fun e => "- " ++ e)) ++
  "\n\nPlease fix these issues before proceeding."

/-- The feedback report of the valid branch of `judge_node` (the PASSED
marker reproduces the literal bytes of the source file). -/
def judgeReport (llm_feedback : String) (suggestionCount : Nat) : String :=
  "JUDGE VALIDATION REPORT\n" ++ eqBar ++
  "\n\nSTRUCTURAL VALIDATION: âœ… PASSED\n\nSEMANTIC REVIEW:\n" ++
  llm_feedback ++
  "\n\nIMPROVEMENT SUGGESTIONS: " ++ toString suggestionCount ++ " suggestions\n"

/-- `judge_node` of judge.py: structural validation first; on failure return
immediately with the original plan and the structural errors; otherwise run
the completion-engine review and report. -/
def judge_node (llm : String → Except PyErr String)
    (jsonSuggestions : String → Option (List Suggestion)) (s : AppState) :
    Except PyErr JudgeUpdate :=
  match validate_plan_structure s.plan s.phase with
  | .error e => .error e
  | .ok (is_valid, structural_errors) =>
    if is_valid then
      match get_llm_validation llm jsonSuggestions s.plan s.input s.phase with
      | .error e => .error e
      | .ok (llm_feedback, suggestions) =>
        .ok { reviewed_plan := s.plan,
              judge_feedback := judgeReport llm_feedback suggestions.length,
              validation_errors := [] }
    else
      .ok { reviewed_plan := s.plan,
            judge_feedback := structFailFeedback structural_errors,
            validation_errors := structural_errors }

/-! Concrete inputs shared by witnesses and counterexamples. -/

/-- A completion-engine stub that always answers. -/
def okLlm : String → Except String String := fun _ => .ok "stub output"

/-- A completion-engine stub that always raises. -/
def failLlm : String → Except String String := fun _ => .error "connection refused"

/-- Demo task 1. -/
def demoTask1 : PlanItem := .obj (some "product_manager") (some "first task text")

/-- Demo task 2. -/
def demoTask2 : PlanItem := .obj (some "research_agent") (some "second task text")

/-- Demo task 3. -/
def demoTask3 : PlanItem := .obj (some "brainstorm_agent") (some "third task text")

/-- A demo plan of length 3. -/
def demoPlan3 : List PlanItem := [demoTask1, demoTask2, demoTask3]

/-- A removal suggestion for 1-based step `n`. -/
def removeSugg (n : Int) : Suggestion := { action := some "remove", step := some n }

/-- A state holding a single enhanced task at cursor 0. -/
def oneTaskState : AppState := { enhanced_plan := [demoTask1], step := 0 }

/-! Claim theorems. -/

/-- A state whose enhancement removed every task: empty enhanced plan over a
non-empty reviewed plan. -/
def c9State : AppState := { reviewed_plan := [demoTask1], enhanced_plan := [] }

/-- A judge oracle stub. -/
def okJudgeLlm : String → Except PyErr String := fun _ => .ok "review text []"

/-- A JSON oracle stub that always fails to parse. -/
def noParse : String → Option (List Suggestion) := fun _ => none

/-- A state with an empty plan, which fails structural validation. -/
def c6State : AppState := { plan := [], phase := "ideation" }

/-- The phase-eligibility test of the addition loop, with the source's
default agent `product_manager` for a suggestion lacking `agent_type`. -/
def allowedAdd (allowed : List String) (s : Suggestion) : Bool :=
  allowed.contains (s.agentType.getD "product_manager")

/-- The task appended by the addition loop for an accepted Add suggestion. -/
def resolveAdd (s : Suggestion) : PlanItem :=
  .obj (some (s.agentType.getD "product_manager")) (some (s.task.getD ""))

/-- The change-log entry recorded for an accepted Add suggestion. -/
def addLogOf (s : Suggestion) : String :=
  addedMsg (s.agentType.getD "product_manager") (s.task.getD "")

/-- An add suggestion for `research_agent` (allowed in ideation). -/
def addSuggOk : Suggestion :=
  { action := some "add", agentType := some "research_agent", task := some "scan the market" }

/-- An add suggestion for `ux_designer` (not allowed in ideation). -/
def addSuggBad : Suggestion :=
  { action := some "add", agentType := some "ux_designer", task := some "sketch wireframes" }

/-- An add suggestion with no `agent_type` key. -/
def addSuggNoAgent : Suggestion := { action := some "add", task := some "draft a concept note" }

/-! Machinery for the removal claim: characterizing the removal loop as an
index filter. -/

/-- The step list of a suggestion list. -/
def stepsOf (suggs : List Suggestion) : List Int := suggs.map stepKey

/-- Keep the elements whose 0-based position (counting from `n`) satisfies `p`. -/
def keepIdxGo (p : Nat → Bool) : Nat → List PlanItem → List PlanItem
  | _, [] => []
  | n, x :: rest => (if p n then [x] else []) ++ keepIdxGo p (n + 1) rest

/-- The plan entries whose 1-based position is not among `steps`. -/
def keepNotRemoved (steps : List Int) (plan : List PlanItem) : List PlanItem :=
  keepIdxGo (fun k => !steps.contains ((k : Int) + 1)) 0 plan

/-! Machinery for the near-duplicate claims: characterizing the Check-5
buckets as order-preserving index filters of the plan. -/

/-- The agent key of the Check-5 grouping: `task.get("agent_type", "unknown")`. -/
def agentKey : PlanItem → String
  | .obj a _ => a.getD "unknown"
  | .nondict _ => "unknown"

/-- The lower-cased description stored by the Check-5 grouping. -/
def descKey : PlanItem → String
  | .obj _ t => pyLower (t.getD "")
  | .nondict _ => ""

/-- Is the element a dict? -/
def isObjItem : PlanItem → Bool
  | .obj _ _ => true
  | .nondict _ => false

/-- The projected contents of the bucket of agent `a` when enumerating
`items` from 0-based position `i`. -/
def collect (a : String) : Nat → List PlanItem → List BEntry
  | _, [] => []
  | i, it :: rest =>
      (if agentKey it = a then [(i + 1, descKey it)] else []) ++ collect a (i + 1) rest

/-- First-match association lookup on a bucket list. -/
def lookupB : List (String × List BEntry) → String → List BEntry
  | [], _ => []
  | p :: rest, a => if p.1 = a then p.2 else lookupB rest a

/-- The keys of a bucket list are pairwise distinct. -/
def keysND (bs : List (String × List BEntry)) : Prop := (bs.map Prod.fst).Nodup

/-- Two same-agent `data_analyst` tasks with high word overlap — the
spec's near-duplicate scenario. -/
def dupPlan : List PlanItem :=
  [.obj (some "data_analyst") (some "analyze user churn data"),
   .obj (some "data_analyst") (some "analyze churn data for users")]

/-- Claim-side test of C3: the element is a record whose raw description has
at least 10 characters. -/
def rawDescAtLeast10 : PlanItem → Bool
  | .obj _ (some t) => 10 ≤ t.length
  | _ => false

/-- Claim-side test of C3: the element is a record whose agent is allowed in
the phase. -/
def agentAllowedIn (phase : String) : PlanItem → Bool
  | .obj (some a) _ => (get_allowed_agents phase).contains a
  | _ => false

/-- A two-task plan with distinct agents and long descriptions. -/
def c3WitnessPlan : List PlanItem :=
  [.obj (some "product_manager") (some "define the product vision"),
   .obj (some "research_agent") (some "scan the market landscape")]

/-- C2: the claim states that for a plan element that is not a dict,
`validate_plan_structure` emits the "not a valid object" error, still
evaluates all remaining rules and returns `(invalid, errors)` without
raising.  The code does append that error in Check 2 and `continue`, but the
Check-3 loop then calls `.get` on the same non-dict element, which raises
`AttributeError`, so the function never returns.  This theorem evaluates the
embedded code at the failing input: a plan whose only element is a Python
`str`, in phase `ideation`. -/
theorem c2_nondict_element_raises :
    validate_plan_structure [PlanItem.nondict "str"] "ideation" =
      .error (.attributeError "str" "get") := rfl

/-- C9: the executor's fallback from the enhanced plan to the reviewed plan
is triggered exactly by emptiness of `enhanced_plan` (Python truthiness of
the list), not by whether enhancement occurred: with `enhanced_plan = []`
the node behaves as `executor_core` run on `reviewed_plan`, and with any
non-empty `enhanced_plan` it behaves as `executor_core` on `enhanced_plan`. -/
theorem c9_empty_enhanced_fallback (llm : String → Except String String) (s : AppState)
    (h : s.enhanced_plan = []) :
    executor_node llm s = executor_core llm s.reviewed_plan s.step s.results s.phase ∧
    ∀ s2 : AppState, s2.enhanced_plan ≠ [] →
      executor_node llm s2 = executor_core llm s2.enhanced_plan s2.step s2.results s2.phase := by
  constructor
  · simp [executor_node, selected_plan, h]
  · intro s2 h2
    simp [executor_node, selected_plan, h2]

/-- Witness for C9 at a concrete state with an empty enhanced plan. -/
theorem c9_empty_enhanced_fallback_witness :
    executor_node okLlm c9State =
      executor_core okLlm c9State.reviewed_plan c9State.step c9State.results c9State.phase ∧
    ∀ s2 : AppState, s2.enhanced_plan ≠ [] →
      executor_node okLlm s2 = executor_core okLlm s2.enhanced_plan s2.step s2.results s2.phase :=
  c9_empty_enhanced_fallback okLlm c9State rfl

/-- C6: if structural validation fails (returns `(False, errs)` without
raising), the judge returns immediately: `reviewed_plan` is the input plan
unchanged, `validation_errors` is exactly the structural error list, and the
output is independent of the completion-engine oracle (and of the JSON
oracle), i.e. no completion-engine call is made in that invocation. -/
theorem c6_judge_invalid_returns_immediately
    (llm : String → Except PyErr String) (jsonSuggestions : String → Option (List Suggestion))
    (s : AppState) (errs : List String)
    (hval : validate_plan_structure s.plan s.phase = .ok (false, errs)) :
    judge_node llm jsonSuggestions s =
      .ok { reviewed_plan := s.plan, judge_feedback := structFailFeedback errs,
            validation_errors := errs } ∧
    ∀ (llm2 : String → Except PyErr String) (js2 : String → Option (List Suggestion)),
      judge_node llm2 js2 s = judge_node llm jsonSuggestions s := by
  have hmain : ∀ (l : String → Except PyErr String) (j : String → Option (List Suggestion)),
      judge_node l j s =
        .ok { reviewed_plan := s.plan, judge_feedback := structFailFeedback errs,
              validation_errors := errs } := by
    intro l j
    unfold judge_node
    rw [hval]
    rfl
  exact ⟨hmain llm jsonSuggestions, fun llm2 js2 => by rw [hmain, hmain]⟩

/-- Witness for C6 at a concrete structurally invalid state. -/
theorem c6_judge_invalid_returns_immediately_witness :
    judge_node okJudgeLlm noParse c6State =
      .ok { reviewed_plan := c6State.plan, judge_feedback := structFailFeedback [emptyPlanMsg],
            validation_errors := [emptyPlanMsg] } ∧
    ∀ (llm2 : String → Except PyErr String) (js2 : String → Option (List Suggestion)),
      judge_node llm2 js2 c6State = judge_node okJudgeLlm noParse c6State :=
  c6_judge_invalid_returns_immediately okJudgeLlm noParse c6State [emptyPlanMsg] rfl

/-- C8: if, while the cursor is in range, the completion-engine call raises
(`llm` returns `Except.error e` on the prompt built for the current task),
the executor does not propagate the failure: it substitutes the explicit
error string `"Error executing task: " ++ e` as the output, still appends
the result record `{agent_type, task, output}` to the results sequence, and
still advances the cursor by 1 (with `done = false`). -/
theorem c8_engine_failure_contained
    (llm : String → Except String String) (s : AppState)
    (h : s.step < (selected_plan s).length) (a t : Option String)
    (hcur : (selected_plan s).get ⟨s.step, h⟩ = .obj a t) (e : String)
    (hfail : llm (build_exec_prompt (a.getD "product_manager") (t.getD "") s.phase s.results) =
      .error e) :
    executor_node llm s =
      .ok { results := s.results ++
              [{ agent_type := a.getD "product_manager", task := t.getD "",
                 output := errorOutputMsg e }],
            step := some (s.step + 1), done := false } := by
  unfold executor_node executor_core
  rw [dif_pos h, hcur]
  simp only [getAgent, getTaskField]
  rw [hfail]

/-- Witness for C8: a concrete in-range state with an engine that raises. -/
theorem c8_engine_failure_contained_witness :
    executor_node failLlm oneTaskState =
      .ok { results := [{ agent_type := "product_manager", task := "first task text",
                          output := errorOutputMsg "connection refused" }],
            step := some 1, done := false } :=
  c8_engine_failure_contained failLlm oneTaskState (by decide)
    (some "product_manager") (some "first task text") rfl "connection refused" rfl

/-- C1 counterexample: the claim states that when the advanced cursor
reaches the plan length, the executing invocation itself sets `done = true`
in the returned update.  At a state with one task and cursor 0 the executor
executes the task, advances the cursor to 1 = plan length, yet returns
`done = false`; completion is only reported by the next invocation. -/
theorem c1_counterexample :
    oneTaskState.step < (selected_plan oneTaskState).length ∧
    (selected_plan oneTaskState).length ≤ oneTaskState.step + 1 ∧
    Except.map ExecUpdate.done (executor_node okLlm oneTaskState) = .ok false :=
  ⟨by decide, by decide, rfl⟩

/-- C1 (amended): while the cursor is in range the executor executes the
task at the cursor, appends one result record, and advances the cursor by 1,
but the returned update always carries `done = false`; the completion flag
is set by the next invocation, which, entered with cursor ≥ plan length,
returns `done = true` (and no `step` key) without executing anything. -/
theorem c1_amended_cursor_advance
    (llm : String → Except String String) (s : AppState)
    (h : s.step < (selected_plan s).length) (a t : Option String)
    (hcur : (selected_plan s).get ⟨s.step, h⟩ = .obj a t) :
    (∃ r : TaskResult, executor_node llm s =
        .ok { results := s.results ++ [r], step := some (s.step + 1), done := false }) ∧
    ∀ (llm2 : String → Except String String) (s2 : AppState),
      (selected_plan s2).length ≤ s2.step →
      executor_node llm2 s2 = .ok { results := s2.results, step := none, done := true } := by
  constructor
  · refine ⟨{ agent_type := a.getD "product_manager", task := t.getD "",
              output := match llm (build_exec_prompt (a.getD "product_manager") (t.getD "")
                  s.phase s.results) with
                | .ok o => o
                | .error e => errorOutputMsg e }, ?_⟩
    unfold executor_node executor_core
    rw [dif_pos h, hcur]
    simp only [getAgent, getTaskField]
  · intro llm2 s2 h2
    unfold executor_node executor_core
    rw [dif_neg (by omega)]

/-- Witness for the amended C1 at a concrete one-task state. -/
theorem c1_amended_cursor_advance_witness :
    (∃ r : TaskResult, executor_node okLlm oneTaskState =
        .ok { results := oneTaskState.results ++ [r], step := some (oneTaskState.step + 1),
              done := false }) ∧
    ∀ (llm2 : String → Except String String) (s2 : AppState),
      (selected_plan s2).length ≤ s2.step →
      executor_node llm2 s2 = .ok { results := s2.results, step := none, done := true } :=
  c1_amended_cursor_advance okLlm oneTaskState (by decide)
    (some "product_manager") (some "first task text") rfl

theorem applyAdds_spec (allowed : List String) :
    ∀ (adds : List Suggestion) (ep : List PlanItem) (log : List String),
      applyAdds allowed ep log adds =
        (ep ++ (adds.filter (allowedAdd allowed)).map resolveAdd,
         log ++ (adds.filter (allowedAdd allowed)).map addLogOf) := by
  intro adds
  induction adds with
  | nil => intro ep log; simp [applyAdds]
  | cons s rest ih =>
      intro ep log
      by_cases hc : s.agentType.getD "product_manager" ∈ allowed
      · simp [applyAdds, hc, allowedAdd, resolveAdd, addLogOf, ih, List.filter_cons]
      · simp [applyAdds, hc, allowedAdd, ih, List.filter_cons]

theorem isAdd_excl (x : Suggestion) (h : isAdd x = true) :
    isModify x = false ∧ isRemove x = false := by
  unfold isAdd at h
  have ha : actionOf x = "add" := by simpa using h
  unfold isModify isRemove
  rw [ha]
  exact ⟨rfl, rfl⟩

/-- The enhancer on an adds-only suggestion list: original plan as an
unchanged prefix, accepted adds appended, one log line per accepted add. -/
theorem apply_adds_only (plan : List PlanItem) (suggs : List Suggestion) (phase : String)
    (hadds : ∀ x ∈ suggs, isAdd x = true) :
    apply_suggestions plan suggs phase =
      .ok (plan ++ (suggs.filter (allowedAdd (get_allowed_agents phase))).map resolveAdd,
           (suggs.filter (allowedAdd (get_allowed_agents phase))).map addLogOf) := by
  have hmod : suggs.filter isModify = [] := by
    rw [List.filter_eq_nil_iff]
    intro x hx
    simp [(isAdd_excl x (hadds x hx)).1]
  have hrem : suggs.filter isRemove = [] := by
    rw [List.filter_eq_nil_iff]
    intro x hx
    simp [(isAdd_excl x (hadds x hx)).2]
  have haddf : suggs.filter isAdd = suggs := by
    rw [List.filter_eq_self]
    intro x hx
    exact hadds x hx
  unfold apply_suggestions
  rw [hmod, hrem, haddf]
  simp only [applyModifies]
  rw [applyAdds_spec]
  simp [sortDescByStep, applyRemoves]

/-- C5: for every plan and every suggestion set containing only Add
suggestions, `apply_suggestions` leaves the length and content of all
existing plan entries unchanged (they form an unchanged prefix of the
result), and the returned plan's length equals the original length plus
exactly the number of Add suggestions whose (defaulted) `agent_type` is
allowed in the given phase; disallowed adds are skipped. -/
theorem c5_adds_only_frame (plan : List PlanItem) (suggs : List Suggestion) (phase : String)
    (hadds : ∀ x ∈ suggs, isAdd x = true) :
    ∃ lg extra,
      apply_suggestions plan suggs phase = .ok (plan ++ extra, lg) ∧
      extra.length = (suggs.filter (allowedAdd (get_allowed_agents phase))).length := by
  refine ⟨_, _, apply_adds_only plan suggs phase hadds, ?_⟩
  simp

/-- Witness for C5: one allowed and one disallowed add in phase ideation. -/
theorem c5_adds_only_frame_witness :
    ∃ lg extra,
      apply_suggestions [demoTask1] [addSuggOk, addSuggBad] "ideation" =
        .ok ([demoTask1] ++ extra, lg) ∧
      extra.length =
        ([addSuggOk, addSuggBad].filter (allowedAdd (get_allowed_agents "ideation"))).length :=
  c5_adds_only_frame [demoTask1] [addSuggOk, addSuggBad] "ideation" (by decide)

/-- C10: an Add suggestion lacking `agent_type` is treated as if its agent
were `product_manager`; `product_manager` is in the allow-list of every
defined phase, so such an Add always passes the phase-eligibility check and
is always appended to the plan (here shown for adds-only suggestion sets). -/
theorem c10_default_add_agent (phase : String)
    (hphase : phase ∈ PHASE_ALLOWED_AGENTS.map Prod.fst) (s : Suggestion)
    (hnone : s.agentType = none) :
    resolveAdd s = .obj (some "product_manager") (some (s.task.getD "")) ∧
    allowedAdd (get_allowed_agents phase) s = true ∧
    ∀ (plan : List PlanItem) (suggs : List Suggestion),
      (∀ x ∈ suggs, isAdd x = true) → s ∈ suggs →
      ∃ lg extra, apply_suggestions plan suggs phase = .ok (plan ++ extra, lg) ∧
        resolveAdd s ∈ extra := by
  have hpm : (get_allowed_agents phase).contains "product_manager" = true := by
    simp only [PHASE_ALLOWED_AGENTS, List.map, List.mem_cons, List.not_mem_nil, or_false]
      at hphase
    rcases hphase with h | h | h | h | h | h <;> subst h <;> decide
  have hallowed : allowedAdd (get_allowed_agents phase) s = true := by
    unfold allowedAdd
    rw [hnone]
    exact hpm
  refine ⟨by simp [resolveAdd, hnone], hallowed, ?_⟩
  intro plan suggs hadds hmem
  refine ⟨_, _, apply_adds_only plan suggs phase hadds, ?_⟩
  exact List.mem_map_of_mem resolveAdd (List.mem_filter_of_mem hmem hallowed)

/-- Witness for C10 in phase ideation with a single agent-less add. -/
theorem c10_default_add_agent_witness :
    resolveAdd addSuggNoAgent = .obj (some "product_manager") (some "draft a concept note") ∧
    allowedAdd (get_allowed_agents "ideation") addSuggNoAgent = true ∧
    ∀ (plan : List PlanItem) (suggs : List Suggestion),
      (∀ x ∈ suggs, isAdd x = true) → addSuggNoAgent ∈ suggs →
      ∃ lg extra, apply_suggestions plan suggs "ideation" = .ok (plan ++ extra, lg) ∧
        resolveAdd addSuggNoAgent ∈ extra :=
  c10_default_add_agent "ideation" (by decide) addSuggNoAgent rfl

theorem keepIdxGo_congr (p q : Nat → Bool) :
    ∀ (l : List PlanItem) (n : Nat), (∀ k, n ≤ k → k < n + l.length → p k = q k) →
      keepIdxGo p n l = keepIdxGo q n l := by
  intro l
  induction l with
  | nil => intro n _; rfl
  | cons x rest ih =>
      intro n hpq
      have h0 : p n = q n := hpq n le_rfl (by simp)
      have htail : keepIdxGo p (n + 1) rest = keepIdxGo q (n + 1) rest := by
        refine ih (n + 1) (fun k hk1 hk2 => hpq k (by omega) ?_)
        simp only [List.length_cons]
        omega
      simp [keepIdxGo, h0, htail]

theorem keepIdxGo_true (p : Nat → Bool) :
    ∀ (l : List PlanItem) (n : Nat), (∀ k, n ≤ k → p k = true) → keepIdxGo p n l = l := by
  intro l
  induction l with
  | nil => intro n _; rfl
  | cons x rest ih =>
      intro n hp
      simp [keepIdxGo, hp n le_rfl, ih (n + 1) (fun k hk => hp k (by omega))]

theorem keepIdxGo_append (p : Nat → Bool) :
    ∀ (xs ys : List PlanItem) (n : Nat),
      keepIdxGo p n (xs ++ ys) = keepIdxGo p n xs ++ keepIdxGo p (n + xs.length) ys := by
  intro xs
  induction xs with
  | nil => intro ys n; simp [keepIdxGo]
  | cons x rest ih =>
      intro ys n
      simp only [List.cons_append, keepIdxGo, List.append_eq]
      rw [ih ys (n + 1)]
      simp only [List.length_cons, List.append_assoc]
      have h1 : n + 1 + rest.length = n + (rest.length + 1) := by omega
      rw [h1]

theorem keepNotRemoved_perm (steps1 steps2 : List Int) (hp : List.Perm steps1 steps2)
    (plan : List PlanItem) : keepNotRemoved steps1 plan = keepNotRemoved steps2 plan := by
  unfold keepNotRemoved
  apply keepIdxGo_congr
  intro k _ _
  have : (steps1.contains ((k : Int) + 1)) = (steps2.contains ((k : Int) + 1)) := by
    by_cases hv : ((k : Int) + 1) ∈ steps1
    · have hv2 := hp.mem_iff.mp hv
      simp [hv, hv2]
    · have hv2 : ((k : Int) + 1) ∉ steps2 := fun hc => hv (hp.mem_iff.mpr hc)
      simp [hv, hv2]
  rw [this]

theorem keep_erase (steps : List Int) (m : Nat) (ep : List PlanItem) (hm : m < ep.length)
    (hlt : ∀ st ∈ steps, st < (m : Int) + 1) :
    keepIdxGo (fun k => !((((m : Int) + 1) :: steps).contains ((k : Int) + 1))) 0 ep =
      keepIdxGo (fun k => !(steps.contains ((k : Int) + 1))) 0 (ep.eraseIdx m) := by
  have hdec : ep = ep.take m ++ ep.get ⟨m, hm⟩ :: ep.drop (m + 1) := by
    conv_lhs => rw [← List.take_append_drop m ep]
    rw [List.drop_eq_getElem_cons hm]
    rfl
  have hlen : (ep.take m).length = m := by
    rw [List.length_take]
    omega
  have htail1 : keepIdxGo (fun k => !((((m : Int) + 1) :: steps).contains ((k : Int) + 1)))
      (m + 1) (ep.drop (m + 1)) = ep.drop (m + 1) := by
    apply keepIdxGo_true
    intro k hk
    have h1 : ((k : Int) + 1) ∉ (((m : Int) + 1) :: steps) := by
      intro hmem
      rcases List.mem_cons.mp hmem with h | h
      · omega
      · have := hlt _ h
        omega
    simp [h1]
  have htail2 : keepIdxGo (fun k => !(steps.contains ((k : Int) + 1))) m (ep.drop (m + 1)) =
      ep.drop (m + 1) := by
    apply keepIdxGo_true
    intro k hk
    have h1 : ((k : Int) + 1) ∉ steps := by
      intro hmem
      have := hlt _ hmem
      omega
    simp [h1]
  have hpref : keepIdxGo (fun k => !((((m : Int) + 1) :: steps).contains ((k : Int) + 1)))
      0 (ep.take m) = keepIdxGo (fun k => !(steps.contains ((k : Int) + 1))) 0 (ep.take m) := by
    apply keepIdxGo_congr
    intro k _ hk2
    rw [hlen] at hk2
    have h1 : (((k : Int) + 1) == ((m : Int) + 1)) = false := by
      simp only [beq_eq_false_iff_ne, ne_eq]
      omega
    simp only [List.contains_cons, h1, Bool.false_or]
  have hself : ((((m : Int) + 1) :: steps).contains (((m : Nat) : Int) + 1)) = true := by
    simp [List.contains_cons]
  calc keepIdxGo (fun k => !((((m : Int) + 1) :: steps).contains ((k : Int) + 1))) 0 ep
      = keepIdxGo (fun k => !((((m : Int) + 1) :: steps).contains ((k : Int) + 1))) 0
          (ep.take m ++ ep.get ⟨m, hm⟩ :: ep.drop (m + 1)) := by rw [← hdec]
    _ = keepIdxGo (fun k => !((((m : Int) + 1) :: steps).contains ((k : Int) + 1))) 0 (ep.take m)
          ++ keepIdxGo (fun k => !((((m : Int) + 1) :: steps).contains ((k : Int) + 1))) m
              (ep.get ⟨m, hm⟩ :: ep.drop (m + 1)) := by
        rw [keepIdxGo_append, hlen, Nat.zero_add]
    _ = keepIdxGo (fun k => !(steps.contains ((k : Int) + 1))) 0 (ep.take m)
          ++ ep.drop (m + 1) := by
        rw [hpref]
        simp only [keepIdxGo, hself, Bool.not_true, if_neg (by simp : ¬false = true)]
        rw [htail1]
        rfl
    _ = keepIdxGo (fun k => !(steps.contains ((k : Int) + 1))) 0 (ep.eraseIdx m) := by
        rw [List.eraseIdx_eq_take_drop_succ, keepIdxGo_append, hlen, Nat.zero_add, htail2]

theorem applyRemoves_spec :
    ∀ (suggs : List Suggestion) (ep : List PlanItem) (log : List String),
      (∀ x ∈ suggs, 1 ≤ stepKey x ∧ stepKey x ≤ (ep.length : Int)) →
      List.Pairwise (fun a b => stepKey b < stepKey a) suggs →
      (∀ it ∈ ep, ∃ a t, it = .obj a (some t)) →
      ∃ lg, applyRemoves ep log suggs = .ok (keepNotRemoved (stepsOf suggs) ep, lg) := by
  intro suggs
  induction suggs with
  | nil =>
      intro ep log _ _ _
      refine ⟨log, ?_⟩
      have : keepNotRemoved (stepsOf []) ep = ep := by
        apply keepIdxGo_true
        intro k _
        simp [stepsOf]
      rw [this]
      rfl
  | cons s rest ih =>
      intro ep log hbd hpw hwf
      have hs := hbd s (List.mem_cons_self s rest)
      have hpwc := List.pairwise_cons.mp hpw
      have hcond : 0 ≤ s.step.getD 0 - 1 ∧ s.step.getD 0 - 1 < (ep.length : Int) := by
        unfold stepKey at hs
        omega
      have hmNat : (s.step.getD 0 - 1).toNat < ep.length := by omega
      obtain ⟨a, t, hat⟩ := hwf _ (List.get_mem ep (s.step.getD 0 - 1).toNat hmNat)
      have hstep :
          applyRemoves ep log (s :: rest) =
            applyRemoves (ep.eraseIdx (s.step.getD 0 - 1).toNat)
              (log ++ [removedMsg (s.step.getD 0) t]) rest := by
        simp only [applyRemoves]
        rw [dif_pos hcond]
        rw [hat]
        rfl
      have hlenE : ((ep.eraseIdx (s.step.getD 0 - 1).toNat).length : Int) =
          (ep.length : Int) - 1 := by
        rw [List.length_eraseIdx]
        simp [hmNat]
        omega
      have hbd2 : ∀ x ∈ rest, 1 ≤ stepKey x ∧
          stepKey x ≤ ((ep.eraseIdx (s.step.getD 0 - 1).toNat).length : Int) := by
        intro x hx
        have h1 := hbd x (List.mem_cons_of_mem s hx)
        have h2 := hpwc.1 x hx
        rw [hlenE]
        unfold stepKey at *
        omega
      have hwf2 : ∀ it ∈ ep.eraseIdx (s.step.getD 0 - 1).toNat, ∃ a t, it = .obj a (some t) :=
        fun it hit => hwf it (List.mem_of_mem_eraseIdx hit)
      obtain ⟨lg, hlg⟩ := ih (ep.eraseIdx (s.step.getD 0 - 1).toNat)
        (log ++ [removedMsg (s.step.getD 0) t]) hbd2 hpwc.2 hwf2
      refine ⟨lg, ?_⟩
      rw [hstep, hlg]
      have hkeep : keepNotRemoved (stepsOf rest) (ep.eraseIdx (s.step.getD 0 - 1).toNat) =
          keepNotRemoved (stepsOf (s :: rest)) ep := by
        have hcast : (((s.step.getD 0 - 1).toNat : Int) + 1) = stepKey s := by
          unfold stepKey at *
          omega
        have hlt : ∀ st ∈ stepsOf rest, st < (((s.step.getD 0 - 1).toNat : Int)) + 1 := by
          intro st hst
          obtain ⟨x, hx, rfl⟩ := List.mem_map.mp hst
          have := hpwc.1 x hx
          omega
        have := keep_erase (stepsOf rest) (s.step.getD 0 - 1).toNat ep hmNat hlt
        unfold keepNotRemoved
        rw [← this]
        have hcons : stepsOf (s :: rest) = stepKey s :: stepsOf rest := rfl
        rw [hcons, ← hcast]
      rw [hkeep]

theorem isRemove_excl (x : Suggestion) (h : isRemove x = true) :
    isAdd x = false ∧ isModify x = false := by
  unfold isRemove at h
  have ha : actionOf x = "remove" := by simpa using h
  unfold isAdd isModify
  rw [ha]
  exact ⟨rfl, rfl⟩

theorem insertDesc_perm (x : Suggestion) (l : List Suggestion) :
    List.Perm (insertDesc x l) (x :: l) := by
  induction l with
  | nil => exact List.Perm.refl _
  | cons y ys ih =>
      unfold insertDesc
      by_cases h : stepKey x < stepKey y
      · rw [if_pos h]
        exact (ih.cons y).trans (List.Perm.swap x y ys)
      · rw [if_neg h]

theorem sortDescByStep_perm (l : List Suggestion) : List.Perm (sortDescByStep l) l := by
  induction l with
  | nil => exact List.Perm.refl _
  | cons x xs ih => exact (insertDesc_perm x (sortDescByStep xs)).trans (ih.cons x)

theorem insertDesc_sorted (x : Suggestion) (l : List Suggestion)
    (hs : List.Pairwise (fun a b => stepKey b ≤ stepKey a) l) :
    List.Pairwise (fun a b => stepKey b ≤ stepKey a) (insertDesc x l) := by
  induction l with
  | nil => simp [insertDesc]
  | cons y ys ih =>
      rw [List.pairwise_cons] at hs
      unfold insertDesc
      by_cases h : stepKey x < stepKey y
      · rw [if_pos h, List.pairwise_cons]
        constructor
        · intro z hz
          rcases List.mem_cons.mp ((insertDesc_perm x ys).mem_iff.mp hz) with rfl | hzys
          · omega
          · exact hs.1 z hzys
        · exact ih hs.2
      · rw [if_neg h, List.pairwise_cons]
        constructor
        · intro z hz
          rcases List.mem_cons.mp hz with rfl | hzys
          · omega
          · have := hs.1 z hzys
            omega
        · exact List.pairwise_cons.mpr hs

theorem sortDescByStep_sorted (l : List Suggestion) :
    List.Pairwise (fun a b => stepKey b ≤ stepKey a) (sortDescByStep l) := by
  induction l with
  | nil => simp [sortDescByStep]
  | cons x xs ih => exact insertDesc_sorted x (sortDescByStep xs) ih

/-- The enhancer on a removals-only suggestion list with distinct in-bounds
steps: the result keeps exactly the entries whose 1-based position is not a
suggested step. -/
theorem apply_removes_only (plan : List PlanItem) (suggs : List Suggestion) (phase : String)
    (hrem : ∀ x ∈ suggs, isRemove x = true)
    (hnd : (stepsOf suggs).Nodup)
    (hbd : ∀ st ∈ stepsOf suggs, 1 ≤ st ∧ st ≤ (plan.length : Int))
    (hwf : ∀ it ∈ plan, ∃ a t, it = .obj a (some t)) :
    ∃ lg, apply_suggestions plan suggs phase = .ok (keepNotRemoved (stepsOf suggs) plan, lg) := by
  have hmod : suggs.filter isModify = [] := by
    rw [List.filter_eq_nil_iff]
    intro x hx
    simp [(isRemove_excl x (hrem x hx)).2]
  have hadd : suggs.filter isAdd = [] := by
    rw [List.filter_eq_nil_iff]
    intro x hx
    simp [(isRemove_excl x (hrem x hx)).1]
  have hremf : suggs.filter isRemove = suggs := by
    rw [List.filter_eq_self]
    exact hrem
  have hperm : List.Perm (sortDescByStep suggs) suggs := sortDescByStep_perm suggs
  have hpermSteps : List.Perm (stepsOf (sortDescByStep suggs)) (stepsOf suggs) := hperm.map stepKey
  have hbd2 : ∀ x ∈ sortDescByStep suggs, 1 ≤ stepKey x ∧ stepKey x ≤ (plan.length : Int) := by
    intro x hx
    exact hbd (stepKey x) (List.mem_map_of_mem stepKey (hperm.mem_iff.mp hx))
  have hnd2 : (stepsOf (sortDescByStep suggs)).Nodup := hpermSteps.nodup_iff.mpr hnd
  have hstrict : List.Pairwise (fun a b => stepKey b < stepKey a) (sortDescByStep suggs) := by
    have h1 := sortDescByStep_sorted suggs
    have h2 : List.Pairwise (fun a b : Suggestion => stepKey a ≠ stepKey b)
        (sortDescByStep suggs) := List.pairwise_map.mp hnd2
    exact (h1.and h2).imp (by intro a b hab; omega)
  obtain ⟨lg, hlg⟩ := applyRemoves_spec (sortDescByStep suggs) plan [] hbd2 hstrict hwf
  have hred : apply_suggestions plan suggs phase =
      applyRemoves plan [] (sortDescByStep suggs) := by
    unfold apply_suggestions
    rw [hmod, hadd, hremf]
    rfl
  refine ⟨lg, ?_⟩
  rw [hred, hlg, keepNotRemoved_perm _ _ hpermSteps]

/-- C4: for every plan of record tasks and every suggestion set consisting
only of Remove suggestions whose 1-based steps are distinct and in bounds,
`apply_suggestions` removes exactly the tasks at those steps and no others
(the result is the index filter `keepNotRemoved`); the resulting plan
depends only on the set of steps, not on the order in which the Remove
suggestions appear; and in particular a 3-task plan with Remove(step=1) and
Remove(step=3) yields exactly the original step-2 task. -/
theorem c4_remove_only_exact (plan : List PlanItem) (suggs : List Suggestion) (phase : String)
    (hrem : ∀ x ∈ suggs, isRemove x = true)
    (hnd : (stepsOf suggs).Nodup)
    (hbd : ∀ st ∈ stepsOf suggs, 1 ≤ st ∧ st ≤ (plan.length : Int))
    (hwf : ∀ it ∈ plan, ∃ a t, it = .obj a (some t)) :
    (∃ lg, apply_suggestions plan suggs phase =
        .ok (keepNotRemoved (stepsOf suggs) plan, lg)) ∧
    (∀ suggs2, (∀ x ∈ suggs2, isRemove x = true) →
        List.Perm (stepsOf suggs2) (stepsOf suggs) →
        ∃ lg2, apply_suggestions plan suggs2 phase =
          .ok (keepNotRemoved (stepsOf suggs) plan, lg2)) ∧
    ∃ lg3, apply_suggestions demoPlan3 [removeSugg 1, removeSugg 3] "ideation" =
        .ok ([demoTask2], lg3) := by
  refine ⟨apply_removes_only plan suggs phase hrem hnd hbd hwf, ?_, ?_⟩
  · intro suggs2 hrem2 hp
    obtain ⟨lg2, hlg2⟩ := apply_removes_only plan suggs2 phase hrem2
      (hp.nodup_iff.mpr hnd) (fun st hst => hbd st (hp.mem_iff.mp hst)) hwf
    exact ⟨lg2, by rw [hlg2, keepNotRemoved_perm _ _ hp]⟩
  · exact ⟨[removedMsg 3 "third task text", removedMsg 1 "first task text"], by decide⟩

/-- Witness for C4 at the length-3 demo plan with removals of steps 1 and 3. -/
theorem c4_remove_only_exact_witness :
    (∃ lg, apply_suggestions demoPlan3 [removeSugg 1, removeSugg 3] "ideation" =
        .ok (keepNotRemoved (stepsOf [removeSugg 1, removeSugg 3]) demoPlan3, lg)) ∧
    (∀ suggs2, (∀ x ∈ suggs2, isRemove x = true) →
        List.Perm (stepsOf suggs2) (stepsOf [removeSugg 1, removeSugg 3]) →
        ∃ lg2, apply_suggestions demoPlan3 suggs2 "ideation" =
          .ok (keepNotRemoved (stepsOf [removeSugg 1, removeSugg 3]) demoPlan3, lg2)) ∧
    ∃ lg3, apply_suggestions demoPlan3 [removeSugg 1, removeSugg 3] "ideation" =
        .ok ([demoTask2], lg3) :=
  c4_remove_only_exact demoPlan3 [removeSugg 1, removeSugg 3] "ideation"
    (by decide) (by decide) (by decide)
    (by
      intro it hit
      simp only [demoPlan3, demoTask1, demoTask2, demoTask3, List.mem_cons,
        List.not_mem_nil, or_false] at hit
      rcases hit with rfl | rfl | rfl
      · exact ⟨some "product_manager", "first task text", rfl⟩
      · exact ⟨some "research_agent", "second task text", rfl⟩
      · exact ⟨some "brainstorm_agent", "third task text", rfl⟩)

theorem bucketInsert_lookup (ag : String) (e : BEntry) (a : String) :
    ∀ bs, lookupB (bucketInsert bs ag e) a = lookupB bs a ++ (if ag = a then [e] else []) := by
  intro bs
  induction bs with
  | nil =>
      by_cases h : ag = a
      · simp [bucketInsert, lookupB, h]
      · simp [bucketInsert, lookupB, h]
  | cons p rest ih =>
      obtain ⟨b, es⟩ := p
      by_cases hb : b = ag
      · subst hb
        by_cases ha : b = a
        · subst ha
          simp [bucketInsert, lookupB]
        · simp [bucketInsert, lookupB, ha, beq_iff_eq]
      · have hb2 : ¬(ag = b) := fun hc => hb hc.symm
        by_cases ha : b = a
        · subst ha
          simp [bucketInsert, lookupB, hb, hb2, beq_iff_eq]
        · simp [bucketInsert, lookupB, hb, ha, beq_iff_eq, ih]

theorem map_fst_bucketInsert (ag : String) (e : BEntry) :
    ∀ bs, (bucketInsert bs ag e).map Prod.fst =
      if ag ∈ bs.map Prod.fst then bs.map Prod.fst else bs.map Prod.fst ++ [ag] := by
  intro bs
  induction bs with
  | nil => simp [bucketInsert]
  | cons p rest ih =>
      obtain ⟨b, es⟩ := p
      by_cases h : b = ag
      · subst h
        simp [bucketInsert]
      · simp only [bucketInsert, beq_iff_eq, if_neg h, List.map_cons, ih]
        by_cases h2 : ag ∈ rest.map Prod.fst
        · rw [if_pos h2, if_pos (List.mem_cons_of_mem b h2)]
        · have hnotin : ag ∉ b :: rest.map Prod.fst := by
            intro hc
            rcases List.mem_cons.mp hc with hc1 | hc2
            · exact h hc1.symm
            · exact h2 hc2
          rw [if_neg h2, if_neg hnotin]
          rfl

theorem bucketInsert_keysND (ag : String) (e : BEntry) (bs : List (String × List BEntry))
    (h : keysND bs) : keysND (bucketInsert bs ag e) := by
  unfold keysND
  rw [map_fst_bucketInsert]
  by_cases h2 : ag ∈ bs.map Prod.fst
  · rw [if_pos h2]
    exact h
  · rw [if_neg h2, List.nodup_append]
    refine ⟨h, List.nodup_singleton ag, ?_⟩
    intro z hz hz2
    simp only [List.mem_singleton] at hz2
    exact h2 (hz2 ▸ hz)

theorem lookupB_self_of_keysND :
    ∀ bs, keysND bs → ∀ p ∈ bs, lookupB bs p.1 = p.2 := by
  intro bs
  induction bs with
  | nil => intro _ p hp; cases hp
  | cons q rest ih =>
      intro hnd p hp
      have hndr : keysND rest := (List.nodup_cons.mp hnd).2
      rcases List.mem_cons.mp hp with rfl | hmem
      · simp [lookupB]
      · have hne : q.1 ≠ p.1 := by
          intro hc
          exact (List.nodup_cons.mp hnd).1 (hc ▸ List.mem_map_of_mem Prod.fst hmem)
        simp only [lookupB, if_neg hne]
        exact ih hndr p hmem

theorem buildBuckets_obj :
    ∀ (items : List PlanItem) (acc : List (String × List BEntry)) (i : Nat) bs,
      buildBuckets acc i items = .ok bs → ∀ it ∈ items, isObjItem it = true := by
  intro items
  induction items with
  | nil => intro _ _ _ _ it hit; cases hit
  | cons x rest ih =>
      intro acc i bs hok it hit
      cases x with
      | obj a t =>
          rcases List.mem_cons.mp hit with rfl | hmem
          · rfl
          · exact ih _ _ _ (by simpa [buildBuckets, getAgent, getTaskField] using hok) it hmem
      | nondict tn => simp [buildBuckets, getAgent] at hok

theorem buildBuckets_ok :
    ∀ (items : List PlanItem) (acc : List (String × List BEntry)) (i : Nat),
      (∀ it ∈ items, isObjItem it = true) → ∃ bs, buildBuckets acc i items = .ok bs := by
  intro items
  induction items with
  | nil => intro acc i _; exact ⟨acc, rfl⟩
  | cons x rest ih =>
      intro acc i hobj
      cases x with
      | obj a t =>
          obtain ⟨bs, hbs⟩ := ih (bucketInsert acc (a.getD "unknown") (i + 1, pyLower (t.getD "")))
            (i + 1) (fun it hit => hobj it (List.mem_cons_of_mem _ hit))
          exact ⟨bs, by simpa [buildBuckets, getAgent, getTaskField] using hbs⟩
      | nondict tn =>
          have := hobj (.nondict tn) (List.mem_cons_self _ _)
          simp [isObjItem] at this

theorem buildBuckets_keysND :
    ∀ (items : List PlanItem) (acc : List (String × List BEntry)) (i : Nat) bs,
      buildBuckets acc i items = .ok bs → keysND acc → keysND bs := by
  intro items
  induction items with
  | nil =>
      intro acc i bs hok hnd
      simp only [buildBuckets, Except.ok.injEq] at hok
      exact hok ▸ hnd
  | cons x rest ih =>
      intro acc i bs hok hnd
      cases x with
      | obj a t =>
          exact ih _ _ _ (by simpa [buildBuckets, getAgent, getTaskField] using hok)
            (bucketInsert_keysND _ _ _ hnd)
      | nondict tn => simp [buildBuckets, getAgent] at hok

theorem buildBuckets_lookup :
    ∀ (items : List PlanItem) (acc : List (String × List BEntry)) (i : Nat) bs,
      buildBuckets acc i items = .ok bs → ∀ a,
        lookupB bs a = lookupB acc a ++ collect a i items := by
  intro items
  induction items with
  | nil =>
      intro acc i bs hok a
      simp only [buildBuckets, Except.ok.injEq] at hok
      simp [← hok, collect]
  | cons x rest ih =>
      intro acc i bs hok a
      cases x with
      | nondict tn => simp [buildBuckets, getAgent] at hok
      | obj aa tt =>
          have hok' : buildBuckets
              (bucketInsert acc (aa.getD "unknown") (i + 1, pyLower (tt.getD "")))
              (i + 1) rest = .ok bs := by
            simpa [buildBuckets, getAgent, getTaskField] using hok
          rw [ih _ _ _ hok' a, bucketInsert_lookup]
          simp only [collect, agentKey, descKey, List.append_assoc]

theorem mem_collect (a : String) :
    ∀ (items : List PlanItem) (i : Nat) (kd : BEntry), kd ∈ collect a i items →
      ∃ j, ∃ h : j < items.length, kd.1 = i + j + 1 ∧
        agentKey (items.get ⟨j, h⟩) = a ∧ kd.2 = descKey (items.get ⟨j, h⟩) := by
  intro items
  induction items with
  | nil => intro i kd h; cases h
  | cons x rest ih =>
      intro i kd hmem
      simp only [collect] at hmem
      rcases List.mem_append.mp hmem with h1 | h2
      · by_cases hc : agentKey x = a
        · rw [if_pos hc] at h1
          have hkd : kd = (i + 1, descKey x) := by simpa using h1
          refine ⟨0, by simp, ?_, ?_, ?_⟩
          · rw [hkd]
          · simpa using hc
          · rw [hkd]
            rfl
        · rw [if_neg hc] at h1; cases h1
      · obtain ⟨j, hj, h1, h2', h3⟩ := ih (i + 1) kd h2
        refine ⟨j + 1, by simpa using Nat.succ_lt_succ hj, by omega, ?_, ?_⟩
        · simpa using h2'
        · simpa using h3

theorem collect_pairwise_lt (a : String) :
    ∀ (items : List PlanItem) (i : Nat),
      List.Pairwise (fun x y : BEntry => x.1 < y.1) (collect a i items) := by
  intro items
  induction items with
  | nil => intro i; simp [collect]
  | cons x rest ih =>
      intro i
      simp only [collect]
      by_cases hc : agentKey x = a
      · rw [if_pos hc]
        simp only [List.singleton_append, List.pairwise_cons]
        constructor
        · intro y hy
          obtain ⟨j, hj, h1, _, _⟩ := mem_collect a rest (i + 1) y hy
          omega
        · exact ih (i + 1)
      · rw [if_neg hc]
        simpa using ih (i + 1)

theorem collect_append (a : String) :
    ∀ (xs ys : List PlanItem) (i : Nat),
      collect a i (xs ++ ys) = collect a i xs ++ collect a (i + xs.length) ys := by
  intro xs
  induction xs with
  | nil => intro ys i; simp [collect]
  | cons x rest ih =>
      intro ys i
      simp only [List.cons_append, collect, List.append_eq]
      rw [ih ys (i + 1)]
      simp only [List.length_cons, List.append_assoc]
      have h1 : i + 1 + rest.length = i + (rest.length + 1) := by omega
      rw [h1]

theorem pairErrors_eq_nil (agent : String) :
    ∀ l, List.Pairwise (fun x y : BEntry => similar x.2 y.2 = false) l →
      pairErrors agent l = [] := by
  intro l
  induction l with
  | nil => intro _; rfl
  | cons x rest ih =>
      intro hpw
      obtain ⟨j1, t1⟩ := x
      rw [List.pairwise_cons] at hpw
      simp only [pairErrors]
      rw [List.filterMap_eq_nil_iff.mpr, ih hpw.2]
      · rfl
      · intro e he
        have := hpw.1 e he
        simp only [this]
        rfl

theorem pairErrors_mem (agent : String) (x y : BEntry) (hs : similar x.2 y.2 = true) :
    ∀ (l1 l2 l3 : List BEntry),
      similarMsg x.1 y.1 agent ∈ pairErrors agent (l1 ++ x :: l2 ++ y :: l3) := by
  intro l1
  induction l1 with
  | nil =>
      intro l2 l3
      obtain ⟨j1, t1⟩ := x
      simp only [List.nil_append, pairErrors]
      apply List.mem_append_left
      apply List.mem_filterMap.mpr
      refine ⟨y, ?_, ?_⟩
      · exact List.mem_append_right _ (List.mem_cons_self _ _)
      · simp only at hs
        simp [hs]
  | cons z l1' ih =>
      intro l2 l3
      obtain ⟨jz, tz⟩ := z
      simp only [List.cons_append, pairErrors]
      exact List.mem_append_right _ (ih l2 l3)

theorem check5_mem (bs : List (String × List BEntry)) (a : String) (l : List BEntry)
    (hmem : (a, l) ∈ bs) (msg : String) (hgt : l.length > 1)
    (hm : msg ∈ pairErrors a l) : msg ∈ check5 bs := by
  unfold check5
  apply List.mem_flatMap.mpr
  exact ⟨(a, l), hmem, by simpa [hgt] using hm⟩

theorem check5_nil (bs : List (String × List BEntry))
    (h : ∀ p ∈ bs, pairErrors p.1 p.2 = []) : check5 bs = [] := by
  unfold check5
  apply List.flatMap_eq_nil_iff.mpr
  intro p hp
  by_cases hgt : p.2.length > 1
  · simp [hgt, h p hp]
  · simp [hgt]

theorem check2_nil :
    ∀ (items : List PlanItem) (i : Nat),
      (∀ it ∈ items, ∃ a t, it = .obj (some a) (some t) ∧ 10 ≤ (pyStrip t).length) →
      check2 i items = [] := by
  intro items
  induction items with
  | nil => intro i _; rfl
  | cons x rest ih =>
      intro i hwf
      obtain ⟨a, t, rfl, hlen⟩ := hwf x (List.mem_cons_self _ _)
      simp [check2, Nat.not_lt.mpr hlen,
        ih (i + 1) (fun it hit => hwf it (List.mem_cons_of_mem _ hit))]

theorem check3_nil (allowed : List String) (phase : String) :
    ∀ (items : List PlanItem) (i : Nat),
      (∀ it ∈ items, ∃ a t, it = .obj (some a) t ∧ a ∈ allowed) →
      check3 allowed phase i items = .ok [] := by
  intro items
  induction items with
  | nil => intro i _; rfl
  | cons x rest ih =>
      intro i hwf
      obtain ⟨a, t, rfl, hmem⟩ := hwf x (List.mem_cons_self _ _)
      simp [check3, getAgent,
        ih (i + 1) (fun it hit => hwf it (List.mem_cons_of_mem _ hit)), hmem]

theorem collect_split1 (a : String) :
    ∀ (items : List PlanItem) (n k : Nat) (hk : k < items.length),
      agentKey (items.get ⟨k, hk⟩) = a →
      ∃ L1 L2, collect a n items =
        L1 ++ (n + k + 1, descKey (items.get ⟨k, hk⟩)) :: L2 := by
  intro items
  induction items with
  | nil => intro n k hk; simp at hk
  | cons x rest ih =>
      intro n k hk ha
      cases k with
      | zero =>
          refine ⟨[], collect a (n + 1) rest, ?_⟩
          have ha' : agentKey x = a := ha
          simp only [collect]
          rw [if_pos ha']
          exact rfl
      | succ k' =>
          have hk' : k' < rest.length := by
            simp only [List.length_cons] at hk
            omega
          obtain ⟨L1, L2, hL⟩ := ih (n + 1) k' hk' ha
          refine ⟨(if agentKey x = a then [(n + 1, descKey x)] else []) ++ L1, L2, ?_⟩
          simp only [collect]
          rw [hL]
          have harith : n + 1 + k' + 1 = n + (k' + 1) + 1 := by omega
          rw [harith, List.append_assoc]
          exact rfl

theorem collect_split (a : String) :
    ∀ (items : List PlanItem) (n i j : Nat) (hij : i < j) (hj : j < items.length),
      agentKey (items.get ⟨i, Nat.lt_trans hij hj⟩) = a →
      agentKey (items.get ⟨j, hj⟩) = a →
      ∃ L1 L2 L3, collect a n items =
        L1 ++ (n + i + 1, descKey (items.get ⟨i, Nat.lt_trans hij hj⟩)) ::
          (L2 ++ (n + j + 1, descKey (items.get ⟨j, hj⟩)) :: L3) := by
  intro items
  induction items with
  | nil => intro n i j hij hj; simp at hj
  | cons x rest ih =>
      intro n i j hij hj ha hb
      obtain ⟨jj, rfl⟩ : ∃ jj, j = jj + 1 := ⟨j - 1, by omega⟩
      have hj' : jj < rest.length := by
        simp only [List.length_cons] at hj
        omega
      cases i with
      | zero =>
          obtain ⟨L2, L3, hL⟩ := collect_split1 a rest (n + 1) jj hj' hb
          refine ⟨[], L2, L3, ?_⟩
          have ha' : agentKey x = a := ha
          simp only [collect]
          rw [if_pos ha', hL]
          have harith : n + 1 + jj + 1 = n + (jj + 1) + 1 := by omega
          rw [harith]
          exact rfl
      | succ i' =>
          have hij' : i' < jj := by omega
          obtain ⟨L1, L2, L3, hL⟩ := ih (n + 1) i' jj hij' hj' ha hb
          refine ⟨(if agentKey x = a then [(n + 1, descKey x)] else []) ++ L1, L2, L3, ?_⟩
          simp only [collect]
          rw [hL]
          have h1 : n + 1 + i' + 1 = n + (i' + 1) + 1 := by omega
          have h2 : n + 1 + jj + 1 = n + (jj + 1) + 1 := by omega
          rw [h1, h2, List.append_assoc]
          exact rfl

theorem lookupB_mem : ∀ (bs : List (String × List BEntry)) (a : String),
    lookupB bs a ≠ [] → (a, lookupB bs a) ∈ bs := by
  intro bs
  induction bs with
  | nil => intro a h; exact absurd rfl h
  | cons p rest ih =>
      intro a h
      by_cases hp : p.1 = a
      · have hlk : lookupB (p :: rest) a = p.2 := by simp [lookupB, hp]
        rw [hlk, ← hp]
        exact List.mem_cons_self _ _
      · have hlk : lookupB (p :: rest) a = lookupB rest a := by simp [lookupB, hp]
        rw [hlk]
        exact List.mem_cons_of_mem p (ih a (hlk ▸ h))

/-- C7: for every pair of record tasks of a plan sharing the same
`agent_type`, if the intersection of the case-folded whitespace-split word
sets of their descriptions exceeds 0.7 times the smaller word-set size (the
`similar` test), then whenever `validate_plan_structure` returns at all, its
error list contains the "seem very similar" message naming both 1-based
indices; and in particular the two `data_analyst` tasks of `dupPlan` yield
exactly that error. -/
theorem c7_near_duplicate_error (plan : List PlanItem) (phase : String)
    (i j : Fin plan.length) (hij : (i : Nat) < (j : Nat))
    (a t1 t2 : String)
    (hi : plan.get i = .obj (some a) (some t1))
    (hj : plan.get j = .obj (some a) (some t2))
    (hsim : similar (pyLower t1) (pyLower t2) = true)
    (v : Bool) (errs : List String)
    (hok : validate_plan_structure plan phase = .ok (v, errs)) :
    similarMsg ((i : Nat) + 1) ((j : Nat) + 1) a ∈ errs ∧
    validate_plan_structure dupPlan "research" =
      .ok (false, [similarMsg 1 2 "data_analyst"]) := by
  refine ⟨?_, by decide⟩
  have hlen : 0 < plan.length := Nat.lt_of_le_of_lt (Nat.zero_le _) j.isLt
  have hne : ¬(plan.isEmpty = true) := by
    simp only [List.isEmpty_iff]
    intro hc
    rw [hc] at hlen
    simp at hlen
  unfold validate_plan_structure at hok
  rw [if_neg hne] at hok
  cases hc3 : check3 (get_allowed_agents phase) phase 0 plan with
  | error e => rw [hc3] at hok; exact absurd hok (by simp)
  | ok e3 =>
    rw [hc3] at hok
    cases hbb : buildBuckets [] 0 plan with
    | error e => rw [hbb] at hok; exact absurd hok (by simp)
    | ok bs =>
      rw [hbb] at hok
      have hok2 : (Except.ok ((check2 0 plan ++ e3 ++ check5 bs).isEmpty,
          check2 0 plan ++ e3 ++ check5 bs) : Except PyErr (Bool × List String)) =
            Except.ok (v, errs) := hok
      have hinj := hok2
      simp only [Except.ok.injEq, Prod.mk.injEq] at hinj
      have herrs : errs = check2 0 plan ++ e3 ++ check5 bs := hinj.2.symm
      rw [herrs]
      apply List.mem_append_right
      have hlk : lookupB bs a = collect a 0 plan := by
        rw [buildBuckets_lookup plan [] 0 bs hbb a]
        rfl
      have hia : agentKey (plan.get ⟨(i : Nat), Nat.lt_trans hij j.isLt⟩) = a := by
        have hgi : plan.get ⟨(i : Nat), Nat.lt_trans hij j.isLt⟩ = plan.get i := rfl
        rw [hgi, hi]
        rfl
      have hja : agentKey (plan.get ⟨(j : Nat), j.isLt⟩) = a := by
        have hgj : plan.get ⟨(j : Nat), j.isLt⟩ = plan.get j := rfl
        rw [hgj, hj]
        rfl
      obtain ⟨L1, L2, L3, hL⟩ := collect_split a plan 0 (i : Nat) (j : Nat) hij j.isLt hia hja
      have hdi : descKey (plan.get ⟨(i : Nat), Nat.lt_trans hij j.isLt⟩) = pyLower t1 := by
        have hgi : plan.get ⟨(i : Nat), Nat.lt_trans hij j.isLt⟩ = plan.get i := rfl
        rw [hgi, hi]
        rfl
      have hdj : descKey (plan.get ⟨(j : Nat), j.isLt⟩) = pyLower t2 := by
        have hgj : plan.get ⟨(j : Nat), j.isLt⟩ = plan.get j := rfl
        rw [hgj, hj]
        rfl
      rw [hdi, hdj, Nat.zero_add, Nat.zero_add] at hL
      have hcne : collect a 0 plan ≠ [] := by
        rw [hL]
        simp
      have hmem : (a, lookupB bs a) ∈ bs := lookupB_mem bs a (by rw [hlk]; exact hcne)
      rw [hlk] at hmem
      apply check5_mem bs a (collect a 0 plan) hmem
      · rw [hL]
        simp only [List.length_append, List.length_cons]
        omega
      · rw [hL]
        have hpm := pairErrors_mem a ((i : Nat) + 1, pyLower t1) ((j : Nat) + 1, pyLower t2)
          hsim L1 L2 L3
        simpa using hpm

/-- Witness for C7 at `dupPlan` in phase research. -/
theorem c7_near_duplicate_error_witness :
    similarMsg (0 + 1) (1 + 1) "data_analyst" ∈ [similarMsg 1 2 "data_analyst"] ∧
    validate_plan_structure dupPlan "research" =
      .ok (false, [similarMsg 1 2 "data_analyst"]) :=
  c7_near_duplicate_error dupPlan "research" ⟨0, by decide⟩ ⟨1, by decide⟩ (by decide)
    "data_analyst" "analyze user churn data" "analyze churn data for users"
    rfl rfl (by decide) false [similarMsg 1 2 "data_analyst"] (by decide)

/-- C3 counterexample: `dupPlan` has at least one task, every description is
at least 10 characters long, and every `agent_type` is allowed in the
`research` phase, yet `validate_plan_structure` returns invalid with a
near-duplicate error — so the claimed "valid with an empty error list" fails
at this input. -/
theorem c3_counterexample :
    (dupPlan.isEmpty = false ∧ dupPlan.all rawDescAtLeast10 = true ∧
      dupPlan.all (agentAllowedIn "research") = true) ∧
    validate_plan_structure dupPlan "research" =
      .ok (false, [similarMsg 1 2 "data_analyst"]) :=
  ⟨by decide, by decide⟩

/-- C3 (amended): for every non-empty plan of record tasks whose stripped
descriptions have at least 10 characters, whose agents are all allowed in
the phase, and in which no two distinct tasks of the same agent exceed the
word-overlap threshold of the near-duplicate rule, `validate_plan_structure`
returns valid with an empty error list.  (The counterexample forces the
added near-duplicate hypothesis; the length hypothesis follows the code's
`len(task["task"].strip())`.) -/
theorem c3_amended_valid_plan (plan : List PlanItem) (phase : String)
    (hne : plan ≠ [])
    (hwf : ∀ it ∈ plan, ∃ a t, it = .obj (some a) (some t) ∧
      10 ≤ (pyStrip t).length ∧ a ∈ get_allowed_agents phase)
    (hdist : ∀ i j : Fin plan.length, i ≠ j →
      agentKey (plan.get i) = agentKey (plan.get j) →
      similar (descKey (plan.get i)) (descKey (plan.get j)) = false) :
    validate_plan_structure plan phase = .ok (true, []) := by
  have hobj : ∀ it ∈ plan, isObjItem it = true := by
    intro it hit
    obtain ⟨a, t, rfl, _⟩ := hwf it hit
    rfl
  have h2 : check2 0 plan = [] :=
    check2_nil plan 0 (fun it hit => by
      obtain ⟨a, t, rfl, h1, _⟩ := hwf it hit
      exact ⟨a, t, rfl, h1⟩)
  have h3 : check3 (get_allowed_agents phase) phase 0 plan = .ok [] :=
    check3_nil _ phase plan 0 (fun it hit => by
      obtain ⟨a, t, rfl, _, hmem⟩ := hwf it hit
      exact ⟨a, some t, rfl, hmem⟩)
  obtain ⟨bs, hbs⟩ := buildBuckets_ok plan [] 0 hobj
  have hksnd : keysND bs := buildBuckets_keysND plan [] 0 bs hbs (by simp [keysND])
  have h5 : check5 bs = [] := by
    apply check5_nil
    intro p hp
    have hpl : p.2 = collect p.1 0 plan := by
      have hself := lookupB_self_of_keysND bs hksnd p hp
      rw [← hself, buildBuckets_lookup plan [] 0 bs hbs p.1]
      rfl
    rw [hpl]
    apply pairErrors_eq_nil
    refine List.Pairwise.imp_of_mem ?_ (collect_pairwise_lt p.1 plan 0)
    intro x y hx hy hlt
    obtain ⟨j1, hj1, hk1, ha1, hd1⟩ := mem_collect p.1 plan 0 x hx
    obtain ⟨j2, hj2, hk2, ha2, hd2⟩ := mem_collect p.1 plan 0 y hy
    have hne12 : (⟨j1, hj1⟩ : Fin plan.length) ≠ ⟨j2, hj2⟩ := by
      intro hc
      have hj : j1 = j2 := by simpa using congrArg Fin.val hc
      omega
    have hsimf := hdist ⟨j1, hj1⟩ ⟨j2, hj2⟩ hne12 (ha1.trans ha2.symm)
    rw [hd1, hd2]
    exact hsimf
  unfold validate_plan_structure
  rw [if_neg (by simpa using hne)]
  rw [h3, hbs]
  simp [h2, h5]

/-- Witness for the amended C3 at a concrete well-formed plan. -/
theorem c3_amended_valid_plan_witness :
    validate_plan_structure c3WitnessPlan "ideation" = .ok (true, []) :=
  c3_amended_valid_plan c3WitnessPlan "ideation" (by decide)
    (by
      intro it hit
      simp only [c3WitnessPlan, List.mem_cons, List.not_mem_nil, or_false] at hit
      rcases hit with rfl | rfl
      · exact ⟨"product_manager", "define the product vision", rfl, by decide, by decide⟩
      · exact ⟨"research_agent", "scan the market landscape", rfl, by decide, by decide⟩)
    (by decide)

end VirtualPMT
